import Mathlib

/-!
Verification development for a C implementation of the NSA Simon block
cipher family (five variants), consisting of the reference cipher code
(`simon64.h`, `simon128.h`, macros in `definitions.h`) and a DPI-C
dispatch routine (`simon.c`).

Words are modelled as `Nat` with wraparound made explicit by `% 2 ^ 32`
or `% 2 ^ 64` exactly where the C type truncates.  Round-key arrays are
`List Nat`; two-word blocks are `Nat × Nat` whose components are
`(Ct[0], Ct[1])` in the order of the C arrays.
-/

/-- `ROTL32(x,r)`: the macro `((x<<r) | (x>>(32-r)))` computed on `u32`,
so the left shift truncates modulo `2 ^ 32`. -/
def ROTL32 (x r : Nat) : Nat := ((x <<< r) % 2 ^ 32) ||| (x >>> (32 - r))

/-- `ROTR32(x,r)`: the macro `((x>>r) | (x<<(32-r)))` on `u32`. -/
def ROTR32 (x r : Nat) : Nat := (x >>> r) ||| ((x <<< (32 - r)) % 2 ^ 32)

/-- `ROTL64(x,r)` on `u64`. -/
def ROTL64 (x r : Nat) : Nat := ((x <<< r) % 2 ^ 64) ||| (x >>> (64 - r))

/-- `ROTR64(x,r)` on `u64`. -/
def ROTR64 (x r : Nat) : Nat := (x >>> r) ||| ((x <<< (64 - r)) % 2 ^ 64)

/-- `f32(x) = (ROTL32(x,1) & ROTL32(x,8)) ^ ROTL32(x,2)` from `simon64.h`. -/
def f32 (x : Nat) : Nat := (ROTL32 x 1 &&& ROTL32 x 8) ^^^ ROTL32 x 2

/-- `f64(x) = (ROTL64(x,1) & ROTL64(x,8)) ^ ROTL64(x,2)` from `simon128.h`. -/
def f64 (x : Nat) : Nat := (ROTL64 x 1 &&& ROTL64 x 8) ^^^ ROTL64 x 2

/-- The constant `c = 0xfffffffc` used by both 32-bit-word key schedules. -/
def c32 : Nat := 0xfffffffc

/-- The constant `c = 0xfffffffffffffffc` used by the 64-bit-word key schedules. -/
def c64 : Nat := 0xfffffffffffffffc

/-- The `z` constant of `Simon6496KeySchedule`. -/
def zSeq6496 : Nat := 0x7369f885192c0ef5

/-- The `z` constant of `Simon64128KeySchedule`. -/
def zSeq64128 : Nat := 0xfc2ce51207a635db

/-- The `z` constant of `Simon128128KeySchedule`. -/
def zSeq128128 : Nat := 0x7369f885192c0ef5

/-- The `z` constant of `Simon128192KeySchedule`. -/
def zSeq128192 : Nat := 0xfc2ce51207a635db

/-- The `z` constant of `Simon128256KeySchedule`. -/
def zSeq128256 : Nat := 0xfdc94c3a046d678b

/-- The key-schedule mixing `ROTR32(y,3) ^ ROTR32(y,4)` of the newest register. -/
def mix32 (y : Nat) : Nat := ROTR32 y 3 ^^^ ROTR32 y 4

/-- The key-schedule mixing `ROTR64(y,3) ^ ROTR64(y,4)` of the newest register. -/
def mix64 (y : Nat) : Nat := ROTR64 y 3 ^^^ ROTR64 y 4

/-- The extra mixing `y ^ ROTR32(y,1)` used only by the four-word schedules. -/
def e32 (y : Nat) : Nat := y ^^^ ROTR32 y 1

/-- The extra mixing `y ^ ROTR64(y,1)` used only by the four-word schedules. -/
def e64 (y : Nat) : Nat := y ^^^ ROTR64 y 1

/-- The first `n` bits of `z`, least significant first: the C loops read
`z & 1` and then execute `z >>= 1` once per sub-round. -/
def bitsOf (z : Nat) : Nat → List Nat
  | 0 => []
  | n + 1 => (z &&& 1) :: bitsOf (z >>> 1) n

/-- Two-register schedule generator (`Simon128128KeySchedule` structure).
The pending registers are `x2` (emitted next) and `x1`; each sub-round
emits `x2` and replaces it by `x2 ^ c ^ b ^ g x1` where `b` is the next
constant bit; when the bits run out the two pending registers are the
last two schedule entries. -/
def sched2 (cc : Nat) (g : Nat → Nat) : List Nat → Nat → Nat → List Nat
  | [], x2, x1 => [x2, x1]
  | b :: bs, x2, x1 => x2 :: sched2 cc g bs x1 (x2 ^^^ cc ^^^ b ^^^ g x1)

/-- Three-register schedule generator (`Simon6496KeySchedule` and
`Simon128192KeySchedule` structure); pending emission order `x3,x2,x1`. -/
def sched3 (cc : Nat) (g : Nat → Nat) : List Nat → Nat → Nat → Nat → List Nat
  | [], x3, x2, x1 => [x3, x2, x1]
  | b :: bs, x3, x2, x1 => x3 :: sched3 cc g bs x2 x1 (x3 ^^^ cc ^^^ b ^^^ g x1)

/-- Four-register schedule generator (`Simon64128KeySchedule` and
`Simon128256KeySchedule` structure): the update additionally mixes in
`e` of the register emitted two sub-rounds later (`B` when updating `A`). -/
def sched4 (cc : Nat) (g e : Nat → Nat) :
    List Nat → Nat → Nat → Nat → Nat → List Nat
  | [], x4, x3, x2, x1 => [x4, x3, x2, x1]
  | b :: bs, x4, x3, x2, x1 =>
      x4 :: sched4 cc g e bs x3 x2 x1 (x4 ^^^ cc ^^^ b ^^^ g x1 ^^^ e x3)

/-- `Simon6496KeySchedule` with the `z` constant as an explicit parameter:
`rk[0..2] = K[0..2]`, then `rk[i] = c ^ (z-bit i-3) ^ rk[i-3] ^
ROTR32(rk[i-1],3) ^ ROTR32(rk[i-1],4)` for `i = 3..41`. -/
def Simon6496KeyScheduleZ (K : List Nat) (z : Nat) : List Nat :=
  sched3 c32 mix32 (bitsOf z 39) (K.getD 0 0) (K.getD 1 0) (K.getD 2 0)

/-- `Simon6496KeySchedule` from `simon64.h`. -/
def Simon6496KeySchedule (K : List Nat) : List Nat :=
  Simon6496KeyScheduleZ K zSeq6496

/-- `Simon64128KeySchedule` from `simon64.h`: `rk[0..3] = K[0..3]`, then
`rk[i] = c ^ (z-bit i-4) ^ rk[i-4] ^ ROTR32(rk[i-1],3) ^ rk[i-3] ^
ROTR32(rk[i-1],4) ^ ROTR32(rk[i-3],1)` for `i = 4..43`. -/
def Simon64128KeySchedule (K : List Nat) : List Nat :=
  sched4 c32 mix32 e32 (bitsOf zSeq64128 40)
    (K.getD 0 0) (K.getD 1 0) (K.getD 2 0) (K.getD 3 0)

/-- `Simon128128KeySchedule` from `simon128.h`: 32 loop iterations of
alternating `A`/`B` emit-then-update sub-rounds consume 64 `z` bits, then
one closing `A`/`B` update pair with the constant bit forced to the
literals `1` and `0`, then the final `A`,`B` are the last two entries. -/
def Simon128128KeySchedule (K : List Nat) : List Nat :=
  sched2 c64 mix64 (bitsOf zSeq128128 64 ++ [1, 0]) (K.getD 0 0) (K.getD 1 0)

/-- `Simon128192KeySchedule` from `simon128.h`: 21 loop iterations of
`A`/`B`/`C` sub-rounds consume 63 `z` bits, then one closing cycle with
the constant bits forced to the literals `1`, `0`, `1`, then the final
`A`,`B`,`C` are the last three entries. -/
def Simon128192KeySchedule (K : List Nat) : List Nat :=
  sched3 c64 mix64 (bitsOf zSeq128192 63 ++ [1, 0, 1])
    (K.getD 0 0) (K.getD 1 0) (K.getD 2 0)

/-- `Simon128256KeySchedule` from `simon128.h`: 16 loop iterations of
`A`/`B`/`C`/`D` sub-rounds consume 64 `z` bits, then one closing cycle
with the constant bits forced to the literals `0`, `1`, `0`, `0`, then
the final `A`,`B`,`C`,`D` are the last four entries. -/
def Simon128256KeySchedule (K : List Nat) : List Nat :=
  sched4 c64 mix64 e64 (bitsOf zSeq128256 64 ++ [0, 1, 0, 0])
    (K.getD 0 0) (K.getD 1 0) (K.getD 2 0) (K.getD 3 0)

/-- Groups a round-key list into the consecutive pairs `(rk[0],rk[1]),
(rk[2],rk[3]), …` consumed by one `R32x2`/`R64x2` double round; a
trailing odd element is not consumed. -/
def toPairs : List Nat → List (Nat × Nat)
  | a :: b :: t => (a, b) :: toPairs t
  | _ => []

/-- The encryption loop: each step is the macro
`R32x2(Ct[1],Ct[0],k1,k2) = (Ct[0]^=f(Ct[1]), Ct[0]^=k1, Ct[1]^=f(Ct[0]),
Ct[1]^=k2)` on the state `(Ct[0], Ct[1])`. -/
def encrypt2 (f : Nat → Nat) : List (Nat × Nat) → Nat × Nat → Nat × Nat
  | [], st => st
  | (k1, k2) :: ks, st =>
      let c0 := st.1 ^^^ f st.2 ^^^ k1
      let c1 := st.2 ^^^ f c0 ^^^ k2
      encrypt2 f ks (c0, c1)

/-- The decryption loop: each step is `R32x2(Pt[0],Pt[1],k1,k2)`
(arguments swapped relative to encryption) on the state `(Pt[0], Pt[1])`,
consuming key pairs `(rk[i], rk[i-1])` supplied highest-first. -/
def decrypt2 (f : Nat → Nat) : List (Nat × Nat) → Nat × Nat → Nat × Nat
  | [], st => st
  | (k1, k2) :: ks, st =>
      let p1 := st.2 ^^^ f st.1 ^^^ k1
      let p0 := st.1 ^^^ f p1 ^^^ k2
      decrypt2 f ks (p0, p1)

/-- One inverse half-round `t=Pt[0]; Pt[0]=Pt[1]^f(Pt[0])^k; Pt[1]=t` —
the body of the `Simon128192Decrypt` loop and of its pre-step. -/
def decHalf (f : Nat → Nat) (k : Nat) (st : Nat × Nat) : Nat × Nat :=
  (st.2 ^^^ f st.1 ^^^ k, st.1)

/-- The extra final half-round of `Simon128192Encrypt`:
`t=Ct[1]; Ct[1]=Ct[0]^f64(Ct[1])^rk[68]; Ct[0]=t`. -/
def encFinal (f : Nat → Nat) (k : Nat) (st : Nat × Nat) : Nat × Nat :=
  (st.2, st.1 ^^^ f st.2 ^^^ k)

/-- `Simon6496Encrypt`: 21 double rounds over `rk[0..41]`. -/
def Simon6496Encrypt (Pt : Nat × Nat) (rk : List Nat) : Nat × Nat :=
  encrypt2 f32 (toPairs rk) Pt

/-- `Simon6496Decrypt`: the double rounds with the key pairs
`(rk[41],rk[40]), (rk[39],rk[38]), …` taken from the end. -/
def Simon6496Decrypt (Ct : Nat × Nat) (rk : List Nat) : Nat × Nat :=
  decrypt2 f32 (toPairs rk.reverse) Ct

/-- `Simon64128Encrypt`: 22 double rounds over `rk[0..43]`. -/
def Simon64128Encrypt (Pt : Nat × Nat) (rk : List Nat) : Nat × Nat :=
  encrypt2 f32 (toPairs rk) Pt

/-- `Simon64128Decrypt`. -/
def Simon64128Decrypt (Ct : Nat × Nat) (rk : List Nat) : Nat × Nat :=
  decrypt2 f32 (toPairs rk.reverse) Ct

/-- `Simon128128Encrypt`: 34 double rounds over `rk[0..67]`. -/
def Simon128128Encrypt (Pt : Nat × Nat) (rk : List Nat) : Nat × Nat :=
  encrypt2 f64 (toPairs rk) Pt

/-- `Simon128128Decrypt`. -/
def Simon128128Decrypt (Ct : Nat × Nat) (rk : List Nat) : Nat × Nat :=
  decrypt2 f64 (toPairs rk.reverse) Ct

/-- `Simon128192Encrypt`: 34 double rounds over `rk[0..67]` (the odd
69th key is not consumed by the pair loop) and then the extra final
half-round with `rk[68]`. -/
def Simon128192Encrypt (Pt : Nat × Nat) (rk : List Nat) : Nat × Nat :=
  encFinal f64 (rk.getD 68 0) (encrypt2 f64 (toPairs rk) Pt)

/-- `Simon128192Decrypt`: the pre-step with `rk[68]` followed by the 68
single inverse half-rounds with `rk[67], …, rk[0]` — i.e. one `decHalf`
per element of the reversed key list. -/
def Simon128192Decrypt (Ct : Nat × Nat) (rk : List Nat) : Nat × Nat :=
  rk.reverse.foldl (fun st k => decHalf f64 k st) Ct

/-- `Simon128256Encrypt`: 36 double rounds over `rk[0..71]`. -/
def Simon128256Encrypt (Pt : Nat × Nat) (rk : List Nat) : Nat × Nat :=
  encrypt2 f64 (toPairs rk) Pt

/-- `Simon128256Decrypt`. -/
def Simon128256Decrypt (Ct : Nat × Nat) (rk : List Nat) : Nat × Nat :=
  decrypt2 f64 (toPairs rk.reverse) Ct

/-- `MODE_ENC` from `definitions.h`. -/
def MODE_ENC : Nat := 0

/-- `MODE_DEC` from `definitions.h`. -/
def MODE_DEC : Nat := 1

/-- The variant dispatch of `dpi_c_run_simon` in `simon.c`, at word level
(the byte/word marshaling collaborator is outside the core).  The C
routine declares a local output buffer, fills it only in the five
supported branches, and unconditionally copies it to the caller's
`txt_o`; the `junk` argument models the indeterminate contents that the
uninitialized buffer has when an unsupported `(sz_txt, sz_key)` pair
takes one of the `// fail` branches, which only print a message. -/
def dpi_c_run_simon (crypto_mode sz_txt sz_key : Nat) (txt : Nat × Nat)
    (key : List Nat) (junk : Nat × Nat) : Nat × Nat :=
  if sz_txt = 64 then
    if sz_key = 96 then
      let rk := Simon6496KeySchedule key
      if crypto_mode = MODE_ENC then Simon6496Encrypt txt rk
      else Simon6496Decrypt txt rk
    else if sz_key = 128 then
      let rk := Simon64128KeySchedule key
      if crypto_mode = MODE_ENC then Simon64128Encrypt txt rk
      else Simon64128Decrypt txt rk
    else junk
  else if sz_txt = 128 then
    if sz_key = 128 then
      let rk := Simon128128KeySchedule key
      if crypto_mode = MODE_ENC then Simon128128Encrypt txt rk
      else Simon128128Decrypt txt rk
    else if sz_key = 192 then
      let rk := Simon128192KeySchedule key
      if crypto_mode = MODE_ENC then Simon128192Encrypt txt rk
      else Simon128192Decrypt txt rk
    else if sz_key = 256 then
      let rk := Simon128256KeySchedule key
      if crypto_mode = MODE_ENC then Simon128256Encrypt txt rk
      else Simon128256Decrypt txt rk
    else junk
  else junk

/-- The mathematical left rotation of an `w`-bit word by `r` places:
low `w - r` bits shifted up by `r`, top `r` bits wrapped to the bottom.
One function for both word widths; only `w` varies. -/
def rotlIdeal (w r x : Nat) : Nat := (x % 2 ^ (w - r)) * 2 ^ r + x / 2 ^ (w - r)

/-! ### Known-answer vectors

The five published Simon test vectors (word order as in the C arrays:
`Pt[0]` is the low word `y`, `Pt[1]` the high word `x`). -/

example : Simon6496Encrypt (0x6e696c63, 0x6f722067)
    (Simon6496KeySchedule [0x03020100, 0x0b0a0908, 0x13121110]) =
    (0x111a8fc8, 0x5ca2e27f) := by decide

example : Simon64128Encrypt (0x20646e75, 0x656b696c)
    (Simon64128KeySchedule [0x03020100, 0x0b0a0908, 0x13121110, 0x1b1a1918]) =
    (0xb9dfa07a, 0x44c8fc20) := by decide

example : Simon128128Encrypt (0x6c6c657661727420, 0x6373656420737265)
    (Simon128128KeySchedule [0x0706050403020100, 0x0f0e0d0c0b0a0908]) =
    (0x65aa832af84e0bbc, 0x49681b1e1e54fe3f) := by decide

example : Simon128192Encrypt (0x6568772065626972, 0x206572656874206e)
    (Simon128192KeySchedule [0x0706050403020100, 0x0f0e0d0c0b0a0908,
      0x1716151413121110]) =
    (0x6c9c8d6e2597b85b, 0xc4ac61effcdc0d4f) := by decide

example : Simon128256Encrypt (0x6d69732061207369, 0x74206e69206d6f6f)
    (Simon128256KeySchedule [0x0706050403020100, 0x0f0e0d0c0b0a0908,
      0x1716151413121110, 0x1f1e1d1c1b1a1918]) =
    (0x3bf72a87efe7b868, 0x8d2b5579afc8a3a0) := by decide

/-! ### Generic round-trip machinery -/

theorem xor_cancel_r (a b : Nat) : a ^^^ b ^^^ b = a := by
  rw [Nat.xor_assoc, Nat.xor_self, Nat.xor_zero]

theorem xor_cancel_mid (a b c : Nat) : a ^^^ b ^^^ c ^^^ b ^^^ c = a := by
  rw [Nat.xor_assoc (a ^^^ b) c b, Nat.xor_comm c b,
    ← Nat.xor_assoc (a ^^^ b) b c, xor_cancel_r, xor_cancel_r]

theorem decrypt2_append (f : Nat → Nat) (l1 l2 : List (Nat × Nat)) (st : Nat × Nat) :
    decrypt2 f (l1 ++ l2) st = decrypt2 f l2 (decrypt2 f l1 st) := by
  induction l1 generalizing st with
  | nil => rfl
  | cons p t ih => obtain ⟨k1, k2⟩ := p; simp [decrypt2, ih]

theorem roundtrip_pairs (f : Nat → Nat) :
    ∀ (ks : List (Nat × Nat)) (st : Nat × Nat),
      decrypt2 f ((ks.map Prod.swap).reverse) (encrypt2 f ks st) = st := by
  intro ks
  induction ks with
  | nil => intro st; rfl
  | cons p t ih =>
    obtain ⟨k1, k2⟩ := p
    intro st
    have hrw : (((k1, k2) :: t).map Prod.swap).reverse =
        (t.map Prod.swap).reverse ++ [(k2, k1)] := by simp
    rw [hrw, show encrypt2 f ((k1, k2) :: t) st =
        encrypt2 f t (st.1 ^^^ f st.2 ^^^ k1,
          st.2 ^^^ f (st.1 ^^^ f st.2 ^^^ k1) ^^^ k2) from rfl,
      decrypt2_append, ih]
    simp only [decrypt2, xor_cancel_mid, Prod.mk.eta]

theorem toPairs_length : ∀ l : List Nat, (toPairs l).length = l.length / 2
  | [] => rfl
  | [_] => by norm_num [toPairs]
  | _ :: _ :: t => by
    simp only [toPairs, List.length_cons, toPairs_length t]
    omega

theorem toPairs_append : ∀ (l1 l2 : List Nat), 2 ∣ l1.length →
    toPairs (l1 ++ l2) = toPairs l1 ++ toPairs l2
  | [], _, _ => rfl
  | [_], _, h => by simp at h
  | a :: b :: t, l2, h => by
    have ht : 2 ∣ t.length := by
      simp only [List.length_cons] at h; omega
    show (a, b) :: toPairs (t ++ l2) = (a, b) :: (toPairs t ++ toPairs l2)
    rw [toPairs_append t l2 ht]

theorem toPairs_reverse : ∀ l : List Nat, 2 ∣ l.length →
    toPairs l.reverse = ((toPairs l).map Prod.swap).reverse
  | [], _ => rfl
  | [_], h => by simp at h
  | a :: b :: t, h => by
    simp only [List.length_cons] at h
    have ht : 2 ∣ t.length := by omega
    have h1 : (a :: b :: t).reverse = t.reverse ++ [b, a] := by simp
    rw [h1, toPairs_append t.reverse [b, a] (by simpa using ht),
      toPairs_reverse t ht]
    simp [toPairs]

theorem rt_even (f : Nat → Nat) (rk : List Nat) (P : Nat × Nat)
    (h : 2 ∣ rk.length) :
    decrypt2 f (toPairs rk.reverse) (encrypt2 f (toPairs rk) P) = P := by
  rw [toPairs_reverse rk h]; exact roundtrip_pairs f (toPairs rk) P

theorem decHalf_pair (f : Nat → Nat) (k1 k2 : Nat) (st : Nat × Nat) :
    decHalf f k2 (decHalf f k1 st) =
      (st.1 ^^^ f (st.2 ^^^ f st.1 ^^^ k1) ^^^ k2, st.2 ^^^ f st.1 ^^^ k1) := rfl

theorem foldl_decHalf (f : Nat → Nat) :
    ∀ (M : List Nat) (st : Nat × Nat), 2 ∣ M.length →
      M.foldl (fun s k => decHalf f k s) st = decrypt2 f (toPairs M) st
  | [], _, _ => rfl
  | [_], _, h => by simp at h
  | k1 :: k2 :: t, st, h => by
    simp only [List.length_cons] at h
    simp only [List.foldl_cons, toPairs, decrypt2, decHalf_pair]
    exact foldl_decHalf f t _ (by omega)

theorem decHalf_encFinal (f : Nat → Nat) (k : Nat) (st : Nat × Nat) :
    decHalf f k (encFinal f k st) = st := by
  simp only [decHalf, encFinal, xor_cancel_mid, Prod.mk.eta]

theorem take_append_getD (l : List Nat) (n : Nat) (h : l.length = n + 1) :
    l.take n ++ [l.getD n 0] = l := by
  have hn : n < l.length := by omega
  have hdrop : l.drop n = [l.getD n 0] := by
    rw [List.drop_eq_getElem_cons hn, List.drop_eq_nil_of_le (by omega),
      List.getD_eq_getElem l 0 hn]
  rw [← hdrop, List.take_append_drop]

theorem rt192 (rk : List Nat) (P : Nat × Nat) (h : rk.length = 69) :
    Simon128192Decrypt (Simon128192Encrypt P rk) rk = P := by
  have hLk : rk.take 68 ++ [rk.getD 68 0] = rk := take_append_getD rk 68 h
  have hL : (rk.take 68).length = 68 := by simp [h]
  have htp : toPairs rk = toPairs (rk.take 68) := by
    conv_lhs => rw [← hLk]
    rw [toPairs_append _ _ (by omega)]
    simp [toPairs]
  have hrev : rk.reverse = rk.getD 68 0 :: (rk.take 68).reverse := by
    conv_lhs => rw [← hLk]
    simp
  rw [Simon128192Decrypt, Simon128192Encrypt, hrev, htp, List.foldl_cons,
    decHalf_encFinal, foldl_decHalf f64 _ _ (by rw [List.length_reverse, hL]; omega),
    rt_even f64 _ P (by rw [hL]; omega)]

/-! ### Schedule-generator lemmas -/

theorem bitsOf_length (z : Nat) : ∀ n, (bitsOf z n).length = n := by
  intro n
  induction n generalizing z with
  | zero => rfl
  | succ n ih => simp [bitsOf, ih]

theorem bitsOf_getD (z n j : Nat) (h : j < n) :
    (bitsOf z n).getD j 0 = (z >>> j) &&& 1 := by
  induction n generalizing z j with
  | zero => omega
  | succ n ih =>
    cases j with
    | zero => simp [bitsOf]
    | succ j =>
      rw [bitsOf, List.getD_cons_succ, ih (z >>> 1) j (by omega),
        ← Nat.shiftRight_add, Nat.add_comm]

theorem sched2_length (cc : Nat) (g : Nat → Nat) :
    ∀ (bits : List Nat) (x2 x1 : Nat),
      (sched2 cc g bits x2 x1).length = bits.length + 2
  | [], _, _ => rfl
  | b :: bs, x2, x1 => by
    simp [sched2, sched2_length cc g bs]

theorem sched3_length (cc : Nat) (g : Nat → Nat) :
    ∀ (bits : List Nat) (x3 x2 x1 : Nat),
      (sched3 cc g bits x3 x2 x1).length = bits.length + 3
  | [], _, _, _ => rfl
  | b :: bs, x3, x2, x1 => by
    simp [sched3, sched3_length cc g bs]

theorem sched4_length (cc : Nat) (g e : Nat → Nat) :
    ∀ (bits : List Nat) (x4 x3 x2 x1 : Nat),
      (sched4 cc g e bits x4 x3 x2 x1).length = bits.length + 4
  | [], _, _, _, _ => rfl
  | b :: bs, x4, x3, x2, x1 => by
    simp [sched4, sched4_length cc g e bs]

theorem sched2_shape (cc : Nat) (g : Nat → Nat) :
    ∀ (bits : List Nat) (x2 x1 : Nat),
      ∃ t, sched2 cc g bits x2 x1 = x2 :: x1 :: t
  | [], x2, x1 => ⟨[], rfl⟩
  | b :: bs, x2, x1 => by
    obtain ⟨t, ht⟩ := sched2_shape cc g bs x1 (x2 ^^^ cc ^^^ b ^^^ g x1)
    exact ⟨_, by rw [sched2, ht]⟩

theorem sched3_shape (cc : Nat) (g : Nat → Nat) :
    ∀ (bits : List Nat) (x3 x2 x1 : Nat),
      ∃ t, sched3 cc g bits x3 x2 x1 = x3 :: x2 :: x1 :: t
  | [], x3, x2, x1 => ⟨[], rfl⟩
  | b :: bs, x3, x2, x1 => by
    obtain ⟨t, ht⟩ := sched3_shape cc g bs x2 x1 (x3 ^^^ cc ^^^ b ^^^ g x1)
    exact ⟨_, by rw [sched3, ht]⟩

theorem sched4_shape (cc : Nat) (g e : Nat → Nat) :
    ∀ (bits : List Nat) (x4 x3 x2 x1 : Nat),
      ∃ t, sched4 cc g e bits x4 x3 x2 x1 = x4 :: x3 :: x2 :: x1 :: t
  | [], x4, x3, x2, x1 => ⟨[], rfl⟩
  | b :: bs, x4, x3, x2, x1 => by
    obtain ⟨t, ht⟩ :=
      sched4_shape cc g e bs x3 x2 x1 (x4 ^^^ cc ^^^ b ^^^ g x1 ^^^ e x3)
    exact ⟨_, by rw [sched4, ht]⟩

/-- The emitted-entry recurrence of the two-register generator: entry
`j + 2` is entry `j` updated with constant bit `j` and the mixing of
entry `j + 1`. -/
theorem sched2_spec (cc : Nat) (g : Nat → Nat) :
    ∀ (bits : List Nat) (x2 x1 j : Nat), j < bits.length →
      (sched2 cc g bits x2 x1).getD (j + 2) 0 =
        (sched2 cc g bits x2 x1).getD j 0 ^^^ cc ^^^ bits.getD j 0 ^^^
          g ((sched2 cc g bits x2 x1).getD (j + 1) 0)
  | [], _, _, _, h => by simp at h
  | b :: bs, x2, x1, 0, _ => by
    obtain ⟨t, ht⟩ := sched2_shape cc g bs x1 (x2 ^^^ cc ^^^ b ^^^ g x1)
    rw [sched2, ht]
    rfl
  | b :: bs, x2, x1, j + 1, h => by
    have hj : j < bs.length := by
      simp only [List.length_cons] at h; omega
    rw [sched2, List.getD_cons_succ, List.getD_cons_succ, List.getD_cons_succ,
      List.getD_cons_succ, sched2_spec cc g bs x1 _ j hj]

/-- The emitted-entry recurrence of the three-register generator. -/
theorem sched3_spec (cc : Nat) (g : Nat → Nat) :
    ∀ (bits : List Nat) (x3 x2 x1 j : Nat), j < bits.length →
      (sched3 cc g bits x3 x2 x1).getD (j + 3) 0 =
        (sched3 cc g bits x3 x2 x1).getD j 0 ^^^ cc ^^^ bits.getD j 0 ^^^
          g ((sched3 cc g bits x3 x2 x1).getD (j + 2) 0)
  | [], _, _, _, _, h => by simp at h
  | b :: bs, x3, x2, x1, 0, _ => by
    obtain ⟨t, ht⟩ := sched3_shape cc g bs x2 x1 (x3 ^^^ cc ^^^ b ^^^ g x1)
    rw [sched3, ht]
    rfl
  | b :: bs, x3, x2, x1, j + 1, h => by
    have hj : j < bs.length := by
      simp only [List.length_cons] at h; omega
    rw [sched3, List.getD_cons_succ, List.getD_cons_succ, List.getD_cons_succ,
      List.getD_cons_succ, sched3_spec cc g bs x2 x1 _ j hj]

/-- The emitted-entry recurrence of the four-register generator: the
update also mixes `e` of entry `j + 1` (three other entries in all). -/
theorem sched4_spec (cc : Nat) (g e : Nat → Nat) :
    ∀ (bits : List Nat) (x4 x3 x2 x1 j : Nat), j < bits.length →
      (sched4 cc g e bits x4 x3 x2 x1).getD (j + 4) 0 =
        (sched4 cc g e bits x4 x3 x2 x1).getD j 0 ^^^ cc ^^^ bits.getD j 0 ^^^
          g ((sched4 cc g e bits x4 x3 x2 x1).getD (j + 3) 0) ^^^
          e ((sched4 cc g e bits x4 x3 x2 x1).getD (j + 1) 0)
  | [], _, _, _, _, _, h => by simp at h
  | b :: bs, x4, x3, x2, x1, 0, _ => by
    obtain ⟨t, ht⟩ :=
      sched4_shape cc g e bs x3 x2 x1 (x4 ^^^ cc ^^^ b ^^^ g x1 ^^^ e x3)
    rw [sched4, ht]
    rfl
  | b :: bs, x4, x3, x2, x1, j + 1, h => by
    have hj : j < bs.length := by
      simp only [List.length_cons] at h; omega
    rw [sched4, List.getD_cons_succ, List.getD_cons_succ, List.getD_cons_succ,
      List.getD_cons_succ, List.getD_cons_succ,
      sched4_spec cc g e bs x3 x2 x1 _ j hj]

/-- Lengths of the five expanded schedules. -/
theorem Simon6496KeySchedule_length (K : List Nat) :
    (Simon6496KeySchedule K).length = 42 := by
  rw [Simon6496KeySchedule, Simon6496KeyScheduleZ, sched3_length, bitsOf_length]

theorem Simon64128KeySchedule_length (K : List Nat) :
    (Simon64128KeySchedule K).length = 44 := by
  rw [Simon64128KeySchedule, sched4_length, bitsOf_length]

theorem Simon128128KeySchedule_length (K : List Nat) :
    (Simon128128KeySchedule K).length = 68 := by
  simp [Simon128128KeySchedule, sched2_length, bitsOf_length]

theorem Simon128192KeySchedule_length (K : List Nat) :
    (Simon128192KeySchedule K).length = 69 := by
  simp [Simon128192KeySchedule, sched3_length, bitsOf_length]

theorem Simon128256KeySchedule_length (K : List Nat) :
    (Simon128256KeySchedule K).length = 72 := by
  simp [Simon128256KeySchedule, sched4_length, bitsOf_length]

/-! ### Rotation lemmas -/

theorem lor_two_pow_mul_add {a b r : Nat} (hb : b < 2 ^ r) :
    2 ^ r * a ||| b = 2 ^ r * a + b := by
  apply Nat.eq_of_testBit_eq
  intro j
  rw [Nat.testBit_or, Nat.testBit_mul_pow_two_add a hb j, Nat.testBit_mul_pow_two]
  by_cases hj : j < r
  · rw [if_pos hj]
    have h1 : decide (j ≥ r) = false := by
      simp only [decide_eq_false_iff_not]; omega
    rw [h1, Bool.false_and, Bool.false_or]
  · rw [if_neg hj]
    have h1 : decide (j ≥ r) = true := by
      simp only [decide_eq_true_eq]; omega
    have h2 : b.testBit j = false :=
      Nat.testBit_lt_two_pow
        (lt_of_lt_of_le hb (Nat.pow_le_pow_right (by omega) (by omega)))
    rw [h1, Bool.true_and, h2, Bool.or_false]

/-- The C rotate-left macro computes the mathematical rotation: for an
in-range word and `0 < r < w`, `((x << r) mod 2^w) | (x >> (w-r))`
equals `rotlIdeal w r x`. -/
theorem rotl_macro_eq (w r x : Nat) (_h0 : 0 < r) (hrw : r < w) (hx : x < 2 ^ w) :
    ((x <<< r) % 2 ^ w) ||| (x >>> (w - r)) = rotlIdeal w r x := by
  rw [Nat.shiftLeft_eq, Nat.shiftRight_eq_div_pow, rotlIdeal]
  have hw : 2 ^ w = 2 ^ (w - r) * 2 ^ r := by
    rw [← pow_add]
    congr 1
    omega
  have h1 : x * 2 ^ r % 2 ^ w = x % 2 ^ (w - r) * 2 ^ r := by
    rw [hw, Nat.mul_mod_mul_right]
  have h2 : x / 2 ^ (w - r) < 2 ^ r := by
    apply Nat.div_lt_of_lt_mul
    rw [← hw]
    exact hx
  rw [h1, Nat.mul_comm (x % 2 ^ (w - r)) (2 ^ r), lor_two_pow_mul_add h2,
    Nat.mul_comm (2 ^ r) (x % 2 ^ (w - r))]

theorem ROTL32_eq (x r : Nat) (h0 : 0 < r) (hr : r < 32) (hx : x < 2 ^ 32) :
    ROTL32 x r = rotlIdeal 32 r x :=
  rotl_macro_eq 32 r x h0 hr hx

theorem ROTL64_eq (x r : Nat) (h0 : 0 < r) (hr : r < 64) (hx : x < 2 ^ 64) :
    ROTL64 x r = rotlIdeal 64 r x :=
  rotl_macro_eq 64 r x h0 hr hx

/-! ### List helpers for key destructuring -/

theorem list_len2 : ∀ l : List Nat, l.length = 2 → l = [l.getD 0 0, l.getD 1 0]
  | [_, _], _ => rfl
  | [], h => by simp at h
  | [_], h => by simp at h
  | _ :: _ :: _ :: _, h => by
    simp only [List.length_cons] at h; omega

theorem list_len3 : ∀ l : List Nat, l.length = 3 →
    l = [l.getD 0 0, l.getD 1 0, l.getD 2 0]
  | [_, _, _], _ => rfl
  | [], h => by simp at h
  | [_], h => by simp at h
  | [_, _], h => by simp at h
  | _ :: _ :: _ :: _ :: _, h => by
    simp only [List.length_cons] at h; omega

theorem list_len4 : ∀ l : List Nat, l.length = 4 →
    l = [l.getD 0 0, l.getD 1 0, l.getD 2 0, l.getD 3 0]
  | [_, _, _, _], _ => rfl
  | [], h => by simp at h
  | [_], h => by simp at h
  | [_, _], h => by simp at h
  | [_, _, _], h => by simp at h
  | _ :: _ :: _ :: _ :: _ :: _, h => by
    simp only [List.length_cons] at h; omega

theorem sched2_take (cc : Nat) (g : Nat → Nat) (bits : List Nat) (x2 x1 : Nat) :
    (sched2 cc g bits x2 x1).take 2 = [x2, x1] := by
  obtain ⟨t, ht⟩ := sched2_shape cc g bits x2 x1
  rw [ht]
  rfl

theorem sched3_take (cc : Nat) (g : Nat → Nat) (bits : List Nat) (x3 x2 x1 : Nat) :
    (sched3 cc g bits x3 x2 x1).take 3 = [x3, x2, x1] := by
  obtain ⟨t, ht⟩ := sched3_shape cc g bits x3 x2 x1
  rw [ht]
  rfl

theorem sched4_take (cc : Nat) (g e : Nat → Nat) (bits : List Nat)
    (x4 x3 x2 x1 : Nat) :
    (sched4 cc g e bits x4 x3 x2 x1).take 4 = [x4, x3, x2, x1] := by
  obtain ⟨t, ht⟩ := sched4_shape cc g e bits x4 x3 x2 x1
  rw [ht]
  rfl

/-! ### Claims -/

/-- C1: for every one of the five variants, every 2-word block `P`, and
every key `K` with the variant's key-word count, decrypting the result of
encrypting `P` under the round-key schedule expanded from `K` yields
exactly `P`. -/
theorem claim_C1 (P : Nat × Nat) (K2 K3 K4 : List Nat)
    (_h2 : K2.length = 2) (_h3 : K3.length = 3) (_h4 : K4.length = 4) :
    Simon6496Decrypt (Simon6496Encrypt P (Simon6496KeySchedule K3))
      (Simon6496KeySchedule K3) = P ∧
    Simon64128Decrypt (Simon64128Encrypt P (Simon64128KeySchedule K4))
      (Simon64128KeySchedule K4) = P ∧
    Simon128128Decrypt (Simon128128Encrypt P (Simon128128KeySchedule K2))
      (Simon128128KeySchedule K2) = P ∧
    Simon128192Decrypt (Simon128192Encrypt P (Simon128192KeySchedule K3))
      (Simon128192KeySchedule K3) = P ∧
    Simon128256Decrypt (Simon128256Encrypt P (Simon128256KeySchedule K4))
      (Simon128256KeySchedule K4) = P := by
  refine ⟨?_, ?_, ?_, ?_, ?_⟩
  · exact rt_even f32 _ P (by rw [Simon6496KeySchedule_length]; omega)
  · exact rt_even f32 _ P (by rw [Simon64128KeySchedule_length]; omega)
  · exact rt_even f64 _ P (by rw [Simon128128KeySchedule_length]; omega)
  · exact rt192 _ P (Simon128192KeySchedule_length K3)
  · exact rt_even f64 _ P (by rw [Simon128256KeySchedule_length]; omega)

/-- Witness for C1 at concrete keys and block. -/
theorem claim_C1_witness :
    ([1, 2] : List Nat).length = 2 ∧ ([1, 2, 3] : List Nat).length = 3 ∧
    ([1, 2, 3, 4] : List Nat).length = 4 ∧
    Simon6496Decrypt (Simon6496Encrypt (5, 6) (Simon6496KeySchedule [1, 2, 3]))
      (Simon6496KeySchedule [1, 2, 3]) = (5, 6) ∧
    Simon64128Decrypt (Simon64128Encrypt (5, 6) (Simon64128KeySchedule [1, 2, 3, 4]))
      (Simon64128KeySchedule [1, 2, 3, 4]) = (5, 6) ∧
    Simon128128Decrypt (Simon128128Encrypt (5, 6) (Simon128128KeySchedule [1, 2]))
      (Simon128128KeySchedule [1, 2]) = (5, 6) ∧
    Simon128192Decrypt (Simon128192Encrypt (5, 6) (Simon128192KeySchedule [1, 2, 3]))
      (Simon128192KeySchedule [1, 2, 3]) = (5, 6) ∧
    Simon128256Decrypt (Simon128256Encrypt (5, 6) (Simon128256KeySchedule [1, 2, 3, 4]))
      (Simon128256KeySchedule [1, 2, 3, 4]) = (5, 6) := by
  have h := claim_C1 (5, 6) [1, 2] [1, 2, 3] [1, 2, 3, 4] rfl rfl rfl
  exact ⟨rfl, rfl, rfl, h.1, h.2.1, h.2.2.1, h.2.2.2.1, h.2.2.2.2⟩

/-- C2: the 69-round variant's encryption applies `floor(69/2) = 34`
paired double-rounds and then exactly one extra half-round with the
single remaining round key `rk[68]`; decryption undoes that half-round
first, as a pre-step before the reversed rounds (`decHalf` of
`encFinal` at the same key is the identity). -/
theorem claim_C2 (rk : List Nat) (h : rk.length = 69) (P C st : Nat × Nat) :
    Simon128192Encrypt P rk =
      encFinal f64 (rk.getD 68 0) (encrypt2 f64 (toPairs (rk.take 68)) P) ∧
    (toPairs (rk.take 68)).length = 34 ∧
    Simon128192Decrypt C rk =
      (rk.take 68).reverse.foldl (fun s k => decHalf f64 k s)
        (decHalf f64 (rk.getD 68 0) C) ∧
    decHalf f64 (rk.getD 68 0) (encFinal f64 (rk.getD 68 0) st) = st := by
  have hLk : rk.take 68 ++ [rk.getD 68 0] = rk := take_append_getD rk 68 h
  have hL : (rk.take 68).length = 68 := by simp [h]
  have htp : toPairs rk = toPairs (rk.take 68) := by
    conv_lhs => rw [← hLk]
    rw [toPairs_append _ _ (by omega)]
    simp [toPairs]
  have hrev : rk.reverse = rk.getD 68 0 :: (rk.take 68).reverse := by
    conv_lhs => rw [← hLk]
    simp
  refine ⟨?_, ?_, ?_, decHalf_encFinal f64 _ st⟩
  · rw [Simon128192Encrypt, htp]
  · rw [toPairs_length, hL]
  · rw [Simon128192Decrypt, hrev, List.foldl_cons]

/-- Witness for C2 at a concrete round-key list, block and state. -/
theorem claim_C2_witness :
    (List.replicate 69 0).length = 69 ∧
    (Simon128192Encrypt (1, 2) (List.replicate 69 0) =
      encFinal f64 ((List.replicate 69 0).getD 68 0)
        (encrypt2 f64 (toPairs ((List.replicate 69 0).take 68)) (1, 2)) ∧
    (toPairs ((List.replicate 69 0).take 68)).length = 34 ∧
    Simon128192Decrypt (3, 4) (List.replicate 69 0) =
      ((List.replicate 69 0).take 68).reverse.foldl (fun s k => decHalf f64 k s)
        (decHalf f64 ((List.replicate 69 0).getD 68 0) (3, 4)) ∧
    decHalf f64 ((List.replicate 69 0).getD 68 0)
      (encFinal f64 ((List.replicate 69 0).getD 68 0) (5, 6)) = (5, 6)) :=
  ⟨by decide, claim_C2 (List.replicate 69 0) (by decide) (1, 2) (3, 4) (5, 6)⟩

/-- Counterexample to C3.  The claim says that for the 3-key-word
variants the closing updates that produce the final 5 schedule entries
use fixed bits *not drawn from the sequence*; for Simon64/96 that would
make every entry from index 37 on independent of the constant-sequence
bits beyond those consumed by the first 37 emissions.  But flipping
sequence bit 38 of the Simon64/96 `z` constant leaves entries 0–40
unchanged and changes the last entry `rk[41]`: every Simon64/96 entry
from index 3 to 41 is sequence-drawn, and there is no fixed-bit closing
section in that variant at all. -/
theorem claim_C3_counterexample :
    (Simon6496KeyScheduleZ [0, 0, 0] zSeq6496).take 41 =
      (Simon6496KeyScheduleZ [0, 0, 0] (zSeq6496 ^^^ (1 <<< 38))).take 41 ∧
    (Simon6496KeyScheduleZ [0, 0, 0] zSeq6496).getD 41 0 ≠
      (Simon6496KeyScheduleZ [0, 0, 0] (zSeq6496 ^^^ (1 <<< 38))).getD 41 0 := by
  decide

/-- C3 as amended: both 3-word schedules satisfy the cycling recurrence
`rk[i] = rk[i-3] ^ c ^ b ^ rotr(rk[i-1],3) ^ rotr(rk[i-1],4)`.  For
Simon64/96 the constant bit `b` is sequence-drawn for *all* entries
`i = 3..41` and there is no fixed-bit closing.  For Simon128/192 the bit
is sequence-drawn for `i = 3..65` and the closing section contributes
the final **6** entries (not 5): `rk[63..65]` are the raw final
`A`,`B`,`C` and `rk[66..68]` come from forced-bit updates with the
literal bits `1`, `0`, `1`. -/
theorem claim_C3_amended (K : List Nat) (j j' : Nat)
    (hj : j < 39) (hj' : j' < 63) :
    (Simon6496KeySchedule K).getD (j + 3) 0 =
      (Simon6496KeySchedule K).getD j 0 ^^^ c32 ^^^ ((zSeq6496 >>> j) &&& 1) ^^^
        mix32 ((Simon6496KeySchedule K).getD (j + 2) 0) ∧
    (Simon128192KeySchedule K).getD (j' + 3) 0 =
      (Simon128192KeySchedule K).getD j' 0 ^^^ c64 ^^^
        ((zSeq128192 >>> j') &&& 1) ^^^
        mix64 ((Simon128192KeySchedule K).getD (j' + 2) 0) ∧
    (Simon128192KeySchedule K).getD 66 0 =
      (Simon128192KeySchedule K).getD 63 0 ^^^ c64 ^^^ 1 ^^^
        mix64 ((Simon128192KeySchedule K).getD 65 0) ∧
    (Simon128192KeySchedule K).getD 67 0 =
      (Simon128192KeySchedule K).getD 64 0 ^^^ c64 ^^^ 0 ^^^
        mix64 ((Simon128192KeySchedule K).getD 66 0) ∧
    (Simon128192KeySchedule K).getD 68 0 =
      (Simon128192KeySchedule K).getD 65 0 ^^^ c64 ^^^ 1 ^^^
        mix64 ((Simon128192KeySchedule K).getD 67 0) := by
  refine ⟨?_, ?_, ?_, ?_, ?_⟩
  · rw [Simon6496KeySchedule, Simon6496KeyScheduleZ,
      sched3_spec c32 mix32 _ _ _ _ j (by rw [bitsOf_length]; omega),
      bitsOf_getD _ _ _ hj]
  · rw [Simon128192KeySchedule,
      sched3_spec c64 mix64 _ _ _ _ j' (by simp [bitsOf_length]; omega),
      List.getD_append _ _ _ _ (by rw [bitsOf_length]; omega),
      bitsOf_getD _ _ _ hj']
  · have hb : (bitsOf zSeq128192 63 ++ [1, 0, 1]).getD 63 0 = 1 := by decide
    rw [Simon128192KeySchedule,
      sched3_spec c64 mix64 _ _ _ _ 63 (by simp [bitsOf_length]), hb]
  · have hb : (bitsOf zSeq128192 63 ++ [1, 0, 1]).getD 64 0 = 0 := by decide
    rw [Simon128192KeySchedule,
      sched3_spec c64 mix64 _ _ _ _ 64 (by simp [bitsOf_length]), hb]
  · have hb : (bitsOf zSeq128192 63 ++ [1, 0, 1]).getD 65 0 = 1 := by decide
    rw [Simon128192KeySchedule,
      sched3_spec c64 mix64 _ _ _ _ 65 (by simp [bitsOf_length]), hb]

/-- Witness for the amended C3 at a concrete key and indices. -/
theorem claim_C3_amended_witness :
    (0 : Nat) < 39 ∧ (0 : Nat) < 63 ∧
    ((Simon6496KeySchedule [1, 2, 3]).getD 3 0 =
      (Simon6496KeySchedule [1, 2, 3]).getD 0 0 ^^^ c32 ^^^
        ((zSeq6496 >>> 0) &&& 1) ^^^
        mix32 ((Simon6496KeySchedule [1, 2, 3]).getD 2 0) ∧
    (Simon128192KeySchedule [1, 2, 3]).getD 3 0 =
      (Simon128192KeySchedule [1, 2, 3]).getD 0 0 ^^^ c64 ^^^
        ((zSeq128192 >>> 0) &&& 1) ^^^
        mix64 ((Simon128192KeySchedule [1, 2, 3]).getD 2 0) ∧
    (Simon128192KeySchedule [1, 2, 3]).getD 66 0 =
      (Simon128192KeySchedule [1, 2, 3]).getD 63 0 ^^^ c64 ^^^ 1 ^^^
        mix64 ((Simon128192KeySchedule [1, 2, 3]).getD 65 0) ∧
    (Simon128192KeySchedule [1, 2, 3]).getD 67 0 =
      (Simon128192KeySchedule [1, 2, 3]).getD 64 0 ^^^ c64 ^^^ 0 ^^^
        mix64 ((Simon128192KeySchedule [1, 2, 3]).getD 66 0) ∧
    (Simon128192KeySchedule [1, 2, 3]).getD 68 0 =
      (Simon128192KeySchedule [1, 2, 3]).getD 65 0 ^^^ c64 ^^^ 1 ^^^
        mix64 ((Simon128192KeySchedule [1, 2, 3]).getD 67 0)) :=
  ⟨by decide, by decide, claim_C3_amended [1, 2, 3] 0 0 (by decide) (by decide)⟩

/-- C4: in both 4-key-word variants every key-schedule sub-round emits
one register and updates it by XORing the emitted value (`rk[i-4]`) with
the constant, the constant bit, `rotr(rk[i-1],3) ^ rotr(rk[i-1],4)`, and
additionally `rk[i-3] ^ rotr(rk[i-3],1)` — the only schedule family
mixing three schedule entries into each update.  For Simon64/128 the bit
is sequence-drawn for all of `i = 4..43`; for Simon128/256 it is
sequence-drawn for `i = 4..67` and forced to the literals `0`,`1`,`0`,`0`
for the closing entries `i = 68..71`. -/
theorem claim_C4 (K : List Nat) (j j' : Nat) (hj : j < 40) (hj' : j' < 64) :
    (Simon64128KeySchedule K).getD (j + 4) 0 =
      (Simon64128KeySchedule K).getD j 0 ^^^ c32 ^^^ ((zSeq64128 >>> j) &&& 1) ^^^
        mix32 ((Simon64128KeySchedule K).getD (j + 3) 0) ^^^
        e32 ((Simon64128KeySchedule K).getD (j + 1) 0) ∧
    (Simon128256KeySchedule K).getD (j' + 4) 0 =
      (Simon128256KeySchedule K).getD j' 0 ^^^ c64 ^^^
        ((zSeq128256 >>> j') &&& 1) ^^^
        mix64 ((Simon128256KeySchedule K).getD (j' + 3) 0) ^^^
        e64 ((Simon128256KeySchedule K).getD (j' + 1) 0) ∧
    (Simon128256KeySchedule K).getD 68 0 =
      (Simon128256KeySchedule K).getD 64 0 ^^^ c64 ^^^ 0 ^^^
        mix64 ((Simon128256KeySchedule K).getD 67 0) ^^^
        e64 ((Simon128256KeySchedule K).getD 65 0) ∧
    (Simon128256KeySchedule K).getD 69 0 =
      (Simon128256KeySchedule K).getD 65 0 ^^^ c64 ^^^ 1 ^^^
        mix64 ((Simon128256KeySchedule K).getD 68 0) ^^^
        e64 ((Simon128256KeySchedule K).getD 66 0) ∧
    (Simon128256KeySchedule K).getD 70 0 =
      (Simon128256KeySchedule K).getD 66 0 ^^^ c64 ^^^ 0 ^^^
        mix64 ((Simon128256KeySchedule K).getD 69 0) ^^^
        e64 ((Simon128256KeySchedule K).getD 67 0) ∧
    (Simon128256KeySchedule K).getD 71 0 =
      (Simon128256KeySchedule K).getD 67 0 ^^^ c64 ^^^ 0 ^^^
        mix64 ((Simon128256KeySchedule K).getD 70 0) ^^^
        e64 ((Simon128256KeySchedule K).getD 68 0) := by
  refine ⟨?_, ?_, ?_, ?_, ?_, ?_⟩
  · rw [Simon64128KeySchedule,
      sched4_spec c32 mix32 e32 _ _ _ _ _ j (by rw [bitsOf_length]; omega),
      bitsOf_getD _ _ _ hj]
  · rw [Simon128256KeySchedule,
      sched4_spec c64 mix64 e64 _ _ _ _ _ j' (by simp [bitsOf_length]; omega),
      List.getD_append _ _ _ _ (by rw [bitsOf_length]; omega),
      bitsOf_getD _ _ _ hj']
  · have hb : (bitsOf zSeq128256 64 ++ [0, 1, 0, 0]).getD 64 0 = 0 := by decide
    rw [Simon128256KeySchedule,
      sched4_spec c64 mix64 e64 _ _ _ _ _ 64 (by simp [bitsOf_length]), hb]
  · have hb : (bitsOf zSeq128256 64 ++ [0, 1, 0, 0]).getD 65 0 = 1 := by decide
    rw [Simon128256KeySchedule,
      sched4_spec c64 mix64 e64 _ _ _ _ _ 65 (by simp [bitsOf_length]), hb]
  · have hb : (bitsOf zSeq128256 64 ++ [0, 1, 0, 0]).getD 66 0 = 0 := by decide
    rw [Simon128256KeySchedule,
      sched4_spec c64 mix64 e64 _ _ _ _ _ 66 (by simp [bitsOf_length]), hb]
  · have hb : (bitsOf zSeq128256 64 ++ [0, 1, 0, 0]).getD 67 0 = 0 := by decide
    rw [Simon128256KeySchedule,
      sched4_spec c64 mix64 e64 _ _ _ _ _ 67 (by simp [bitsOf_length]), hb]

/-- Witness for C4 at a concrete key and indices. -/
theorem claim_C4_witness :
    (0 : Nat) < 40 ∧ (0 : Nat) < 64 ∧
    ((Simon64128KeySchedule [1, 2, 3, 4]).getD 4 0 =
      (Simon64128KeySchedule [1, 2, 3, 4]).getD 0 0 ^^^ c32 ^^^
        ((zSeq64128 >>> 0) &&& 1) ^^^
        mix32 ((Simon64128KeySchedule [1, 2, 3, 4]).getD 3 0) ^^^
        e32 ((Simon64128KeySchedule [1, 2, 3, 4]).getD 1 0) ∧
    (Simon128256KeySchedule [1, 2, 3, 4]).getD 4 0 =
      (Simon128256KeySchedule [1, 2, 3, 4]).getD 0 0 ^^^ c64 ^^^
        ((zSeq128256 >>> 0) &&& 1) ^^^
        mix64 ((Simon128256KeySchedule [1, 2, 3, 4]).getD 3 0) ^^^
        e64 ((Simon128256KeySchedule [1, 2, 3, 4]).getD 1 0) ∧
    (Simon128256KeySchedule [1, 2, 3, 4]).getD 68 0 =
      (Simon128256KeySchedule [1, 2, 3, 4]).getD 64 0 ^^^ c64 ^^^ 0 ^^^
        mix64 ((Simon128256KeySchedule [1, 2, 3, 4]).getD 67 0) ^^^
        e64 ((Simon128256KeySchedule [1, 2, 3, 4]).getD 65 0) ∧
    (Simon128256KeySchedule [1, 2, 3, 4]).getD 69 0 =
      (Simon128256KeySchedule [1, 2, 3, 4]).getD 65 0 ^^^ c64 ^^^ 1 ^^^
        mix64 ((Simon128256KeySchedule [1, 2, 3, 4]).getD 68 0) ^^^
        e64 ((Simon128256KeySchedule [1, 2, 3, 4]).getD 66 0) ∧
    (Simon128256KeySchedule [1, 2, 3, 4]).getD 70 0 =
      (Simon128256KeySchedule [1, 2, 3, 4]).getD 66 0 ^^^ c64 ^^^ 0 ^^^
        mix64 ((Simon128256KeySchedule [1, 2, 3, 4]).getD 69 0) ^^^
        e64 ((Simon128256KeySchedule [1, 2, 3, 4]).getD 67 0) ∧
    (Simon128256KeySchedule [1, 2, 3, 4]).getD 71 0 =
      (Simon128256KeySchedule [1, 2, 3, 4]).getD 67 0 ^^^ c64 ^^^ 0 ^^^
        mix64 ((Simon128256KeySchedule [1, 2, 3, 4]).getD 70 0) ^^^
        e64 ((Simon128256KeySchedule [1, 2, 3, 4]).getD 68 0)) :=
  ⟨by decide, by decide, claim_C4 [1, 2, 3, 4] 0 0 (by decide) (by decide)⟩

/-- C5: the Simon128/128 schedule has 68 entries; entries 0 and 1 are
the two key words; the core consists of 64 sequence-drawn alternating
`A`/`B` emit-then-update sub-rounds (equivalently, entry `j+2` for
`j < 64` satisfies the recurrence with `z`-bit `j`); and the final 4
entries follow the fixed closing pattern: one more `A`/`B` update pair
with the constant bit forced to the literals `1` and `0` (producing
`rk[66]` and `rk[67]`, emitted after the raw `rk[64]`,`rk[65]`). -/
theorem claim_C5 (K : List Nat) (j : Nat) (hj : j < 64) :
    (Simon128128KeySchedule K).length = 68 ∧
    (Simon128128KeySchedule K).getD 0 0 = K.getD 0 0 ∧
    (Simon128128KeySchedule K).getD 1 0 = K.getD 1 0 ∧
    (Simon128128KeySchedule K).getD (j + 2) 0 =
      (Simon128128KeySchedule K).getD j 0 ^^^ c64 ^^^
        ((zSeq128128 >>> j) &&& 1) ^^^
        mix64 ((Simon128128KeySchedule K).getD (j + 1) 0) ∧
    (Simon128128KeySchedule K).getD 66 0 =
      (Simon128128KeySchedule K).getD 64 0 ^^^ c64 ^^^ 1 ^^^
        mix64 ((Simon128128KeySchedule K).getD 65 0) ∧
    (Simon128128KeySchedule K).getD 67 0 =
      (Simon128128KeySchedule K).getD 65 0 ^^^ c64 ^^^ 0 ^^^
        mix64 ((Simon128128KeySchedule K).getD 66 0) := by
  obtain ⟨t, ht⟩ :=
    sched2_shape c64 mix64 (bitsOf zSeq128128 64 ++ [1, 0]) (K.getD 0 0) (K.getD 1 0)
  refine ⟨Simon128128KeySchedule_length K, ?_, ?_, ?_, ?_, ?_⟩
  · rw [Simon128128KeySchedule, ht]
    rfl
  · rw [Simon128128KeySchedule, ht]
    rfl
  · rw [Simon128128KeySchedule,
      sched2_spec c64 mix64 _ _ _ j (by simp [bitsOf_length]; omega),
      List.getD_append _ _ _ _ (by rw [bitsOf_length]; omega),
      bitsOf_getD _ _ _ hj]
  · have hb : (bitsOf zSeq128128 64 ++ [1, 0]).getD 64 0 = 1 := by decide
    rw [Simon128128KeySchedule,
      sched2_spec c64 mix64 _ _ _ 64 (by simp [bitsOf_length]), hb]
  · have hb : (bitsOf zSeq128128 64 ++ [1, 0]).getD 65 0 = 0 := by decide
    rw [Simon128128KeySchedule,
      sched2_spec c64 mix64 _ _ _ 65 (by simp [bitsOf_length]), hb]

/-- Witness for C5 at a concrete key and index. -/
theorem claim_C5_witness :
    (0 : Nat) < 64 ∧
    ((Simon128128KeySchedule [1, 2]).length = 68 ∧
    (Simon128128KeySchedule [1, 2]).getD 0 0 = ([1, 2] : List Nat).getD 0 0 ∧
    (Simon128128KeySchedule [1, 2]).getD 1 0 = ([1, 2] : List Nat).getD 1 0 ∧
    (Simon128128KeySchedule [1, 2]).getD 2 0 =
      (Simon128128KeySchedule [1, 2]).getD 0 0 ^^^ c64 ^^^
        ((zSeq128128 >>> 0) &&& 1) ^^^
        mix64 ((Simon128128KeySchedule [1, 2]).getD 1 0) ∧
    (Simon128128KeySchedule [1, 2]).getD 66 0 =
      (Simon128128KeySchedule [1, 2]).getD 64 0 ^^^ c64 ^^^ 1 ^^^
        mix64 ((Simon128128KeySchedule [1, 2]).getD 65 0) ∧
    (Simon128128KeySchedule [1, 2]).getD 67 0 =
      (Simon128128KeySchedule [1, 2]).getD 65 0 ^^^ c64 ^^^ 0 ^^^
        mix64 ((Simon128128KeySchedule [1, 2]).getD 66 0)) :=
  ⟨by decide, claim_C5 [1, 2] 0 (by decide)⟩

/-- Counterexample to C6.  The claim says no two variants share the same
round-constant sequence, but the `z` constant of `Simon6496KeySchedule`
is literally the same number as that of `Simon128128KeySchedule`, and
the one of `Simon64128KeySchedule` is the same as that of
`Simon128192KeySchedule`: only three distinct sequences serve the five
variants. -/
theorem claim_C6_counterexample :
    zSeq6496 = zSeq128128 ∧ zSeq64128 = zSeq128192 :=
  ⟨rfl, rfl⟩

/-- C6 as amended: there are three distinct precomputed literal constant
sequences, not five — Simon64/96 and Simon128/128 share one, Simon64/128
and Simon128/192 share another, Simon128/256 alone uses the third — and
each schedule consumes its sequence low-bit-first, one bit per
key-schedule sub-round (position `j` of the consumed bit list is bit `j`
of the constant). -/
theorem claim_C6_amended (z n j : Nat) (hj : j < n) :
    zSeq6496 = zSeq128128 ∧ zSeq64128 = zSeq128192 ∧
    zSeq6496 ≠ zSeq64128 ∧ zSeq6496 ≠ zSeq128256 ∧ zSeq64128 ≠ zSeq128256 ∧
    (bitsOf z n).getD j 0 = (z >>> j) &&& 1 :=
  ⟨rfl, rfl, by decide, by decide, by decide, bitsOf_getD z n j hj⟩

/-- Witness for the amended C6. -/
theorem claim_C6_amended_witness :
    (0 : Nat) < 39 ∧
    (zSeq6496 = zSeq128128 ∧ zSeq64128 = zSeq128192 ∧
    zSeq6496 ≠ zSeq64128 ∧ zSeq6496 ≠ zSeq128256 ∧ zSeq64128 ≠ zSeq128256 ∧
    (bitsOf zSeq6496 39).getD 0 0 = (zSeq6496 >>> 0) &&& 1) :=
  ⟨by decide, claim_C6_amended zSeq6496 39 0 (by decide)⟩

/-- C7 is a code bug: on an unsupported `(block-size, key-size)` pair the
C routine only prints a failure message and performs no mixing, but it
still executes the output-conversion steps, so the caller's `txt_o`
buffer *is* written — with the indeterminate contents of the
uninitialized local output buffer.  Evaluating the model at the
unsupported pair (64-bit block, 64-bit key) shows the output is exactly
the uninitialized-buffer contents, hence depends on them. -/
theorem claim_C7_bug :
    dpi_c_run_simon MODE_ENC 64 64 (0, 0) [0, 0] (1, 2) = (1, 2) ∧
    dpi_c_run_simon MODE_ENC 64 64 (0, 0) [0, 0] (3, 4) = (3, 4) ∧
    ((1, 2) : Nat × Nat) ≠ (3, 4) := by
  refine ⟨by decide, by decide, by decide⟩

/-- C8: for every variant, key-schedule expansion writes exactly the
variant's round count of words — 42, 44, 68, 69, 72 — and (being a pure
function of the key list) the schedule is fully determined by the key
and the variant. -/
theorem claim_C8 (K : List Nat) :
    (Simon6496KeySchedule K).length = 42 ∧
    (Simon64128KeySchedule K).length = 44 ∧
    (Simon128128KeySchedule K).length = 68 ∧
    (Simon128192KeySchedule K).length = 69 ∧
    (Simon128256KeySchedule K).length = 72 :=
  ⟨Simon6496KeySchedule_length K, Simon64128KeySchedule_length K,
    Simon128128KeySchedule_length K, Simon128192KeySchedule_length K,
    Simon128256KeySchedule_length K⟩

/-- Witness for C8 at a concrete key. -/
theorem claim_C8_witness :
    (Simon6496KeySchedule [1, 2, 3]).length = 42 ∧
    (Simon64128KeySchedule [1, 2, 3]).length = 44 ∧
    (Simon128128KeySchedule [1, 2, 3]).length = 68 ∧
    (Simon128192KeySchedule [1, 2, 3]).length = 69 ∧
    (Simon128256KeySchedule [1, 2, 3]).length = 72 :=
  claim_C8 [1, 2, 3]

/-- C9: for every in-range word of either width, the round function
computes `(rotl(x,1) AND rotl(x,8)) XOR rotl(x,2)` where `rotl` is the
one mathematical rotation function `rotlIdeal` with the amounts fixed at
1, 8 and 2 in both instantiations — only the width argument (32 or 64)
differs. -/
theorem claim_C9 (x y : Nat) (hx : x < 2 ^ 32) (hy : y < 2 ^ 64) :
    f32 x = (rotlIdeal 32 1 x &&& rotlIdeal 32 8 x) ^^^ rotlIdeal 32 2 x ∧
    f64 y = (rotlIdeal 64 1 y &&& rotlIdeal 64 8 y) ^^^ rotlIdeal 64 2 y := by
  constructor
  · rw [f32, ROTL32_eq x 1 (by omega) (by omega) hx,
      ROTL32_eq x 8 (by omega) (by omega) hx,
      ROTL32_eq x 2 (by omega) (by omega) hx]
  · rw [f64, ROTL64_eq y 1 (by omega) (by omega) hy,
      ROTL64_eq y 8 (by omega) (by omega) hy,
      ROTL64_eq y 2 (by omega) (by omega) hy]

/-- Witness for C9 at concrete words. -/
theorem claim_C9_witness :
    (0x12345678 : Nat) < 2 ^ 32 ∧ (0x123456789abcdef0 : Nat) < 2 ^ 64 ∧
    (f32 0x12345678 =
      (rotlIdeal 32 1 0x12345678 &&& rotlIdeal 32 8 0x12345678) ^^^
        rotlIdeal 32 2 0x12345678 ∧
    f64 0x123456789abcdef0 =
      (rotlIdeal 64 1 0x123456789abcdef0 &&& rotlIdeal 64 8 0x123456789abcdef0) ^^^
        rotlIdeal 64 2 0x123456789abcdef0) :=
  ⟨by decide, by decide, claim_C9 0x12345678 0x123456789abcdef0 (by decide) (by decide)⟩

/-- C10: for every variant with `m` key words, the first `m` entries of
the expanded schedule are the `m` key words unchanged and in order. -/
theorem claim_C10 (K2 K3 K4 : List Nat)
    (h2 : K2.length = 2) (h3 : K3.length = 3) (h4 : K4.length = 4) :
    (Simon6496KeySchedule K3).take 3 = K3 ∧
    (Simon64128KeySchedule K4).take 4 = K4 ∧
    (Simon128128KeySchedule K2).take 2 = K2 ∧
    (Simon128192KeySchedule K3).take 3 = K3 ∧
    (Simon128256KeySchedule K4).take 4 = K4 := by
  refine ⟨?_, ?_, ?_, ?_, ?_⟩
  · rw [Simon6496KeySchedule, Simon6496KeyScheduleZ, sched3_take]
    exact (list_len3 K3 h3).symm
  · rw [Simon64128KeySchedule, sched4_take]
    exact (list_len4 K4 h4).symm
  · rw [Simon128128KeySchedule, sched2_take]
    exact (list_len2 K2 h2).symm
  · rw [Simon128192KeySchedule, sched3_take]
    exact (list_len3 K3 h3).symm
  · rw [Simon128256KeySchedule, sched4_take]
    exact (list_len4 K4 h4).symm

/-- Witness for C10 at concrete keys. -/
theorem claim_C10_witness :
    ([1, 2] : List Nat).length = 2 ∧ ([1, 2, 3] : List Nat).length = 3 ∧
    ([1, 2, 3, 4] : List Nat).length = 4 ∧
    ((Simon6496KeySchedule [1, 2, 3]).take 3 = [1, 2, 3] ∧
    (Simon64128KeySchedule [1, 2, 3, 4]).take 4 = [1, 2, 3, 4] ∧
    (Simon128128KeySchedule [1, 2]).take 2 = [1, 2] ∧
    (Simon128192KeySchedule [1, 2, 3]).take 3 = [1, 2, 3] ∧
    (Simon128256KeySchedule [1, 2, 3, 4]).take 4 = [1, 2, 3, 4]) :=
  ⟨rfl, rfl, rfl, claim_C10 [1, 2] [1, 2, 3] [1, 2, 3, 4] rfl rfl rfl⟩
